import Mathlib

/-!
Verification development for the Medical-Dosimetry repository (HU.ipynb).

The notebook is a single linear pipeline: a ZIP archive is saved into a
temporary directory and extracted there; the directory tree is walked; every
file whose lower-cased name ends in ".dcm" is parsed as DICOM; records whose
Modality tag upper-cases to "CT" are kept; the kept slices are sorted by
InstanceNumber (Python sorted, a stable sort, with key int(InstanceNumber));
each slice is rescaled to Hounsfield units as pixel_array * RescaleSlope +
RescaleIntercept (defaults 1 and 0); the slices are stacked into a volume;
the middle slice (index shape[0] // 2) is displayed and a histogram of the
flattened volume is drawn with 200 bins over the range (-1000, 2000).

Modelling choices:
- File names and the Modality tag are sequences of Unicode code points
  (List Nat); Python lower()/upper() are modelled on the ASCII letters,
  which covers every literal the script compares against (".dcm", "CT").
- Pixel values are integers; slopes, intercepts and HU values are rationals,
  the exact idealisation of the float arithmetic in the script.
- A file of the extracted tree is a name together with the result of
  attempting to parse it as DICOM and read the consumed tags: a parse
  failure (or a missing required tag) is None, and makes the whole run
  abort, which the pipeline models by returning none.
- The matplotlib histogram call is recorded as the data and parameters
  passed to it; the binning function hist places a value into one of the
  200 equal-width bins, the last bin closed on the right, values outside
  the range in no bin, following numpy.histogram semantics.
-/

namespace MedicalDosimetry

/-- A Python string, as its sequence of Unicode code points. -/
abbrev PyStr := List Nat

/-- Python str.lower restricted to ASCII letters (enough for ".dcm"). -/
def asciiLower (s : PyStr) : PyStr :=
  s.map (fun c => if 65 ≤ c ∧ c ≤ 90 then c + 32 else c)

/-- Python str.upper restricted to ASCII letters (enough for "CT"). -/
def asciiUpper (s : PyStr) : PyStr :=
  s.map (fun c => if 97 ≤ c ∧ c ≤ 122 then c - 32 else c)

/-- Python s.endswith(t). -/
def endsWith (s t : PyStr) : Bool := t.isSuffixOf s

/-- The code points of ".dcm". -/
def dcmSuffix : PyStr := [46, 100, 99, 109]

/-- The code points of "CT". -/
def ctStr : PyStr := [67, 84]

/-- The code points of "uploaded.zip", the name under which the uploaded
archive is saved inside the temporary directory. -/
def uploadedZipName : PyStr := [117, 112, 108, 111, 97, 100, 101, 100, 46, 122, 105, 112]

/-- A parsed DICOM record, holding exactly the attributes the script
consumes. InstanceNumber is recorded already coerced to integer. -/
structure Dicom where
  Modality : PyStr
  InstanceNumber : Int
  RescaleSlope : Option ℚ
  RescaleIntercept : Option ℚ
  pixel_array : List (List Int)
deriving DecidableEq

/-- A file of the extracted tree: its base name and the result of parsing it
as DICOM and reading the consumed tags (none = pydicom.dcmread or a required
tag access would raise). -/
structure FileEntry where
  name : PyStr
  parsed : Option Dicom
deriving DecidableEq

/-- The filename filter of the discovery loop:
filename.lower().endswith(".dcm"). -/
def isDcmName (n : PyStr) : Bool := endsWith (asciiLower n) dcmSuffix

/-- The modality test of the discovery loop: ds.Modality.upper() == "CT". -/
def isCT (ds : Dicom) : Prop := asciiUpper ds.Modality = ctStr

instance (ds : Dicom) : Decidable (isCT ds) := by unfold isCT; infer_instance

/-- The discovery loop: walk the files, parse every name passing the .dcm
filter, keep the CT records in discovery order. A parse failure on a
filtered file aborts the run (none). -/
def collectCT : List FileEntry → Option (List Dicom)
  | [] => some []
  | f :: rest =>
    if isDcmName f.name then
      f.parsed.bind (fun ds =>
        (collectCT rest).map (fun l => if isCT ds then ds :: l else l))
    else collectCT rest

/-- The sort key comparison: int(InstanceNumber), ascending. -/
def sliceLE (a b : Dicom) : Bool := a.InstanceNumber ≤ b.InstanceNumber

/-- Python sorted(ct_slices, key=lambda x: int(x.InstanceNumber)): a stable
sort by the integer InstanceNumber, modelled by the stable mergeSort. -/
def sortSlices (l : List Dicom) : List Dicom := l.mergeSort sliceLE

/-- getattr(s, "RescaleSlope", 1). -/
def slopeOf (s : Dicom) : ℚ := s.RescaleSlope.getD 1

/-- getattr(s, "RescaleIntercept", 0). -/
def interceptOf (s : Dicom) : ℚ := s.RescaleIntercept.getD 0

/-- s.pixel_array.astype(float32) * slope + intercept, in exact rational
arithmetic; the cast of a pixel value into ℚ models the float conversion. -/
def hu_slice (s : Dicom) : List (List ℚ) :=
  s.pixel_array.map (fun row => row.map (fun p : ℤ => (p : ℚ) * slopeOf s + interceptOf s))

/-- The shape of a 2D array: the list of its row lengths (for the
rectangular arrays numpy produces this determines the numpy shape). -/
def shape (a : List (List ℚ)) : List Nat := a.map List.length

/-- np.stack(arrays): succeeds on a non-empty list of equally shaped arrays,
returning the 3D array whose subarrays along the new leading axis are the
inputs in order; raises (none) otherwise. -/
def stack (arrays : List (List (List ℚ))) : Option (List (List (List ℚ))) :=
  match arrays with
  | [] => none
  | a :: rest => if ∀ b ∈ rest, shape b = shape a then some (a :: rest) else none

/-- volume.shape[0] // 2. -/
def mid_slice_idx (volume : List (List (List ℚ))) : Nat := volume.length / 2

/-- volume.ravel(): row-major flattening of the 3D array. -/
def ravel (volume : List (List (List ℚ))) : List ℚ :=
  (volume.map List.flatten).flatten

/-- Lower edge of the histogram range. -/
def histLo : ℚ := -1000

/-- Upper edge of the histogram range. -/
def histHi : ℚ := 2000

/-- Number of histogram bins. -/
def numBins : Nat := 200

/-- The common width of the histogram bins. -/
def binWidth : ℚ := (histHi - histLo) / (numBins : ℚ)

/-- The bin a value falls into under numpy/matplotlib binning with
bins=200 and range=(-1000, 2000): 200 equal-width bins, each half-open on
the right except the last, which is closed; values outside the range fall
into no bin. -/
def binIndexOf (x : ℚ) : Option Nat :=
  if x < histLo ∨ histHi < x then none
  else if x = histHi then some (numBins - 1)
  else some (Int.toNat ⌊(x - histLo) / binWidth⌋)

/-- The bin counts matplotlib computes for ax2.hist(vals, bins=200,
range=(-1000, 2000)). -/
def histCounts (vals : List ℚ) : List Nat :=
  (List.range numBins).map (fun i => (vals.filter (fun x => binIndexOf x = some i)).length)

/-- The arguments the script passes to ax2.hist. -/
structure HistSpec where
  data : List ℚ
  bins : Nat
  lo : ℚ
  hi : ℚ
deriving DecidableEq

/-- What one run renders: either the single error message, or the middle
slice image together with the histogram call. -/
inductive Output where
  | errorMsg (msg : String)
  | display (volume : List (List (List ℚ))) (midIdx : Nat)
      (midSlice : List (List ℚ)) (hist : HistSpec)
deriving DecidableEq

/-- The error message of the empty branch. -/
def msgNoCT : String := "No CT DICOM slices found in uploaded ZIP."

/-- The pipeline after discovery: the zero-slice guard, the sort, the HU
conversion, the stack, the middle-slice selection and the histogram call. -/
def afterCollect (ct : List Dicom) : Option Output :=
  if ct.length = 0 then some (Output.errorMsg msgNoCT)
  else
    match stack ((sortSlices ct).map hu_slice) with
    | none => none
    | some volume =>
      some (Output.display volume (mid_slice_idx volume)
        (volume.getD (mid_slice_idx volume) [])
        { data := ravel volume, bins := numBins, lo := histLo, hi := histHi })

/-- The whole run on the extracted tree: discovery then the rest; none
models an uncaught exception (parse failure or stacking error). -/
def runPipeline (files : List FileEntry) : Option Output :=
  (collectCT files).bind afterCollect

/-! ### Example records used to instantiate the hypotheses of the claims -/

/-- A CT slice with InstanceNumber 3 and no rescale tags. -/
def dIN3 : Dicom := ⟨ctStr, 3, none, none, [[3]]⟩

/-- A CT slice with InstanceNumber 1 and no rescale tags. -/
def dIN1a : Dicom := ⟨ctStr, 1, none, none, [[1]]⟩

/-- A second CT slice with InstanceNumber 1, distinguishable from the
first by its pixel data. -/
def dIN1b : Dicom := ⟨ctStr, 1, none, none, [[2]]⟩

/-- A CT slice with explicit RescaleSlope 2 and RescaleIntercept -1. -/
def dSlope2 : Dicom := ⟨ctStr, 1, some 2, some (-1), [[3]]⟩

/-- A CT slice with both rescale tags absent. -/
def dNoTags : Dicom := ⟨ctStr, 1, none, none, [[7]]⟩

/-- A record whose Modality is "MR". -/
def dMR : Dicom := ⟨[77, 82], 1, none, none, [[5]]⟩

/-- The code points of "a.dcm". -/
def dcmNameA : PyStr := [97, 46, 100, 99, 109]

/-- The code points of "b.dcm". -/
def dcmNameB : PyStr := [98, 46, 100, 99, 109]

/-- A file "a.dcm" parsing to the CT record dIN3. -/
def fCT1 : FileEntry := ⟨dcmNameA, some dIN3⟩

/-- A file "b.dcm" parsing to the MR record. -/
def fMR : FileEntry := ⟨dcmNameB, some dMR⟩

/-- The saved archive as it appears in the walked tree: named
"uploaded.zip", not parseable as DICOM. -/
def fZip : FileEntry := ⟨uploadedZipName, none⟩

/-! ### Basic facts about the sort comparison -/

theorem sliceLE_trans : ∀ a b c : Dicom,
    sliceLE a b = true → sliceLE b c = true → sliceLE a c = true := by
  intro a b c hab hbc
  simp only [sliceLE, decide_eq_true_eq] at *
  omega

theorem sliceLE_total : ∀ a b : Dicom, (sliceLE a b || sliceLE b a) = true := by
  intro a b
  simp only [sliceLE, Bool.or_eq_true, decide_eq_true_eq]
  omega

/-! ### The claims -/

/-- C1: the kept slices are sorted in ascending order of the integer
InstanceNumber, the sorted list is a permutation of the discovered one, and
the sort is stable: two slices with equal InstanceNumber keep their
discovery order. -/
theorem claim_C1 (l : List Dicom) :
    List.Pairwise (fun a b => a.InstanceNumber ≤ b.InstanceNumber) (sortSlices l)
    ∧ (sortSlices l).Perm l
    ∧ (∀ a b : Dicom, a.InstanceNumber = b.InstanceNumber →
        [a, b].Sublist l → [a, b].Sublist (sortSlices l)) := by
  refine ⟨?_, List.mergeSort_perm l sliceLE, ?_⟩
  · exact (List.sorted_mergeSort sliceLE_trans sliceLE_total l).imp
      (fun h => by simpa [sliceLE] using h)
  · intro a b hab hsub
    exact List.sublist_mergeSort sliceLE_trans sliceLE_total
      (by simp [sliceLE, hab]) hsub

/-- Witness for C1: two slices with equal InstanceNumber 1, discovered after
a slice with InstanceNumber 3, keep their relative order in the sorted
output. -/
theorem claim_C1_witness :
    [dIN1a, dIN1b].Sublist (sortSlices [dIN3, dIN1a, dIN1b]) :=
  (claim_C1 [dIN3, dIN1a, dIN1b]).2.2 dIN1a dIN1b rfl
    (List.Sublist.cons dIN3 (List.Sublist.refl _))

/-- C2: with RescaleSlope S and RescaleIntercept I present, every pixel of
the HU slice equals the raw pixel value (cast to the number field) times S
plus I. -/
theorem claim_C2 (s : Dicom) (S I : ℚ) (hS : s.RescaleSlope = some S)
    (hI : s.RescaleIntercept = some I) (i j : Nat) :
    ((hu_slice s)[i]?.bind (fun row => row[j]?))
      = (s.pixel_array[i]?.bind (fun row => row[j]?)).map
          (fun p : ℤ => (p : ℚ) * S + I) := by
  simp only [hu_slice, slopeOf, interceptOf, hS, hI, Option.getD_some,
    List.getElem?_map]
  cases hrow : s.pixel_array[i]? with
  | none => rfl
  | some row => simp [List.getElem?_map]

/-- Witness for C2: a slice with slope 2, intercept -1 and single pixel 3. -/
theorem claim_C2_witness :
    ((hu_slice dSlope2)[0]?.bind (fun row => row[0]?))
      = (dSlope2.pixel_array[0]?.bind (fun row => row[0]?)).map
          (fun p : ℤ => (p : ℚ) * 2 + -1) :=
  claim_C2 dSlope2 2 (-1) rfl rfl 0 0

/-- C3: an absent RescaleSlope defaults to 1, an absent RescaleIntercept
defaults to 0, and with both tags absent the HU slice is the raw pixel
array (cast to the number field). -/
theorem claim_C3 (s : Dicom) :
    (s.RescaleSlope = none → slopeOf s = 1)
    ∧ (s.RescaleIntercept = none → interceptOf s = 0)
    ∧ (s.RescaleSlope = none → s.RescaleIntercept = none →
        hu_slice s = s.pixel_array.map (fun row => row.map (fun p : ℤ => (p : ℚ)))) := by
  refine ⟨fun h => by simp [slopeOf, h], fun h => by simp [interceptOf, h], ?_⟩
  intro h1 h2
  simp only [hu_slice, slopeOf, interceptOf, h1, h2, Option.getD_none,
    mul_one, add_zero]

/-- Witness for C3: a slice with both rescale tags absent. -/
theorem claim_C3_witness :
    slopeOf dNoTags = 1 ∧ interceptOf dNoTags = 0
      ∧ hu_slice dNoTags = dNoTags.pixel_array.map (fun row => row.map (fun p : ℤ => (p : ℚ))) :=
  ⟨(claim_C3 dNoTags).1 rfl, (claim_C3 dNoTags).2.1 rfl,
    (claim_C3 dNoTags).2.2 rfl rfl⟩

/-- A CT slice with InstanceNumber 2 and a single zero pixel. -/
def dA : Dicom := ⟨ctStr, 2, none, none, [[0]]⟩

/-- A CT slice with InstanceNumber 1 and a single unit pixel. -/
def dB : Dicom := ⟨ctStr, 1, none, none, [[1]]⟩

/-- A CT slice with InstanceNumber 5 and a single zero pixel. -/
def dC : Dicom := ⟨ctStr, 5, none, none, [[0]]⟩

/-- A file "a.dcm" parsing to dA. -/
def fA : FileEntry := ⟨dcmNameA, some dA⟩

/-- A file "b.dcm" parsing to dB. -/
def fB : FileEntry := ⟨dcmNameB, some dB⟩

/-- A file "a.dcm" parsing to dC. -/
def fC : FileEntry := ⟨dcmNameA, some dC⟩

/-! ### Structure of the discovery loop -/

theorem collectCT_eq_filterMap (files : List FileEntry) (l : List Dicom)
    (h : collectCT files = some l) :
    l = (files.filter (fun f => isDcmName f.name)).filterMap
          (fun f => f.parsed.bind (fun ds => if isCT ds then some ds else none)) := by
  induction files generalizing l with
  | nil =>
    simp only [collectCT, Option.some.injEq] at h
    simp [← h]
  | cons f rest ih =>
    by_cases hname : isDcmName f.name
    · cases hp : f.parsed with
      | none => simp [collectCT, hname, hp] at h
      | some ds =>
        cases hrest : collectCT rest with
        | none => simp [collectCT, hname, hp, hrest] at h
        | some l2 =>
          simp only [collectCT, hname, if_true, hp, hrest, Option.some_bind,
            Option.map_some', Option.some.injEq] at h
          rw [List.filter_cons_of_pos (p := fun g : FileEntry => isDcmName g.name) hname,
            List.filterMap_cons, hp]
          by_cases hct : isCT ds
          · simp only [hct, if_true] at h
            simp only [Option.some_bind, hct, if_true]
            rw [← h, ← ih l2 hrest]
          · simp only [hct, if_false] at h
            simp only [Option.some_bind, hct, if_false]
            rw [← h, ← ih l2 hrest]
    · rw [collectCT, if_neg hname] at h
      rw [List.filter_cons_of_neg (p := fun g : FileEntry => isDcmName g.name) hname]
      exact ih l h

theorem collectCT_skips (pre post : List FileEntry) (e : FileEntry)
    (he : ¬ isDcmName e.name = true) :
    collectCT (pre ++ e :: post) = collectCT (pre ++ post) := by
  induction pre with
  | nil => simp only [List.nil_append, collectCT, if_neg he]
  | cons f t ih => simp only [List.cons_append, collectCT, List.append_eq, ih]

/-! ### Structure of the stacking step and the display branch -/

theorem stack_some_eq {l vol : List (List (List ℚ))} (h : stack l = some vol) :
    vol = l := by
  cases l with
  | nil => simp [stack] at h
  | cons a rest =>
    rw [stack] at h
    split at h
    · exact (Option.some.injEq _ _ ▸ h).symm
    · exact absurd h (by simp)

theorem runPipeline_display {files : List FileEntry}
    {vol : List (List (List ℚ))} {idx : Nat} {sl : List (List ℚ)} {hs : HistSpec}
    (hrun : runPipeline files = some (Output.display vol idx sl hs)) :
    ∃ ct : List Dicom, collectCT files = some ct ∧ ct ≠ []
      ∧ vol = (sortSlices ct).map hu_slice
      ∧ idx = mid_slice_idx vol ∧ sl = vol.getD idx []
      ∧ hs = ⟨ravel vol, numBins, histLo, histHi⟩ := by
  cases hct : collectCT files with
  | none => rw [runPipeline, hct] at hrun; exact absurd hrun (by simp)
  | some ct =>
    rw [runPipeline, hct, Option.some_bind, afterCollect] at hrun
    by_cases h0 : ct.length = 0
    · rw [if_pos h0] at hrun
      simp at hrun
    · rw [if_neg h0] at hrun
      cases hst : stack ((sortSlices ct).map hu_slice) with
      | none => rw [hst] at hrun; exact absurd hrun (by simp)
      | some volume =>
        rw [hst] at hrun
        have hv := stack_some_eq hst
        simp only [Option.some.injEq, Output.display.injEq] at hrun
        obtain ⟨rfl, rfl, rfl, rfl⟩ := hrun
        exact ⟨ct, rfl, fun hnil => h0 (by rw [hnil]; rfl), hv, rfl, rfl, rfl⟩

/-- C5: a run whose discovery succeeds but keeps zero CT records reports
exactly the message of the script and renders nothing else; conversely an
error message is only ever produced in that case, and is always that exact
message. -/
theorem claim_C5 (files : List FileEntry) :
    (collectCT files = some [] →
      runPipeline files = some (Output.errorMsg ("No CT DICOM slices found in uploaded ZIP."))
      ∧ ∀ o : Output, runPipeline files = some o →
          o = Output.errorMsg ("No CT DICOM slices found in uploaded ZIP."))
    ∧ (∀ msg : String, runPipeline files = some (Output.errorMsg msg) →
        msg = "No CT DICOM slices found in uploaded ZIP." ∧ collectCT files = some []) := by
  constructor
  · intro h
    have hrun : runPipeline files = some (Output.errorMsg msgNoCT) := by
      rw [runPipeline, h, Option.some_bind, afterCollect]
      rfl
    refine ⟨hrun, fun o ho => ?_⟩
    rw [hrun] at ho
    exact (Option.some.injEq _ _ ▸ ho).symm
  · intro msg hmsg
    cases hct : collectCT files with
    | none => rw [runPipeline, hct] at hmsg; exact absurd hmsg (by simp)
    | some ct =>
      rw [runPipeline, hct, Option.some_bind, afterCollect] at hmsg
      by_cases h0 : ct.length = 0
      · rw [if_pos h0] at hmsg
        simp only [Option.some.injEq, Output.errorMsg.injEq] at hmsg
        exact ⟨hmsg.symm, by rw [List.length_eq_zero] at h0; rw [h0]⟩
      · rw [if_neg h0] at hmsg
        cases hst : stack ((sortSlices ct).map hu_slice) with
        | none => rw [hst] at hmsg; exact absurd hmsg (by simp)
        | some volume => rw [hst] at hmsg; exact absurd hmsg (by simp)

/-- Witness for C5: a ZIP holding one parseable MR DICOM and no CT. -/
theorem claim_C5_witness :
    runPipeline [fMR] = some (Output.errorMsg ("No CT DICOM slices found in uploaded ZIP."))
      ∧ ∀ o : Output, runPipeline [fMR] = some o →
          o = Output.errorMsg ("No CT DICOM slices found in uploaded ZIP.") :=
  (claim_C5 [fMR]).1 (by decide)

/-- C6: a successful discovery keeps exactly the parses of the files whose
lower-cased name ends in ".dcm" whose Modality upper-cases to "CT", in
discovery order; membership in the kept list is equivalent to being such a
record of such a file. -/
theorem claim_C6 (files : List FileEntry) (l : List Dicom)
    (h : collectCT files = some l) :
    l = (files.filter (fun f => isDcmName f.name)).filterMap
          (fun f => f.parsed.bind (fun ds => if isCT ds then some ds else none))
    ∧ ∀ ds : Dicom, ds ∈ l ↔
        ∃ f : FileEntry, f ∈ files ∧ isDcmName f.name ∧ f.parsed = some ds ∧ isCT ds := by
  have he := collectCT_eq_filterMap files l h
  refine ⟨he, fun ds => ?_⟩
  rw [he]
  simp only [List.mem_filterMap, List.mem_filter]
  constructor
  · rintro ⟨f, ⟨hf, hdcm⟩, hbind⟩
    cases hp : f.parsed with
    | none => rw [hp] at hbind; exact absurd hbind (by simp)
    | some d0 =>
      rw [hp, Option.some_bind] at hbind
      by_cases hct : isCT d0
      · rw [if_pos hct] at hbind
        obtain rfl : d0 = ds := Option.some.injEq _ _ ▸ hbind
        exact ⟨f, hf, hdcm, hp, hct⟩
      · rw [if_neg hct] at hbind
        exact absurd hbind (by simp)
  · rintro ⟨f, hf, hdcm, hp, hct⟩
    exact ⟨f, ⟨hf, hdcm⟩, by rw [hp, Option.some_bind, if_pos hct]⟩

/-- Witness for C6: a tree holding one CT file and one MR file; only the CT
record is kept. -/
theorem claim_C6_witness :
    [dIN3] = (([fCT1, fMR].filter (fun f => isDcmName f.name)).filterMap
          (fun f => f.parsed.bind (fun ds => if isCT ds then some ds else none)))
    ∧ ∀ ds : Dicom, ds ∈ [dIN3] ↔
        ∃ f : FileEntry, f ∈ [fCT1, fMR] ∧ isDcmName f.name ∧ f.parsed = some ds ∧ isCT ds :=
  claim_C6 [fCT1, fMR] [dIN3] (by decide)

/-- C8: on a non-empty list of slices, stacking succeeds exactly when all
slices share the same 2D shape, and then the volume is the list of slices
in order along the new leading axis; a shape mismatch fails. -/
theorem claim_C8 (arrays : List (List (List ℚ))) (hne : arrays ≠ []) :
    ((stack arrays).isSome ↔ ∀ a ∈ arrays, ∀ b ∈ arrays, shape a = shape b)
    ∧ (∀ vol : List (List (List ℚ)), stack arrays = some vol → vol = arrays) := by
  refine ⟨?_, fun vol h => stack_some_eq h⟩
  obtain ⟨a, rest, rfl⟩ := List.exists_cons_of_ne_nil hne
  rw [stack]
  by_cases hall : ∀ b ∈ rest, shape b = shape a
  · rw [if_pos hall]
    simp only [Option.isSome_some, true_iff]
    intro x hx y hy
    have hxa : shape x = shape a := by
      rcases List.mem_cons.mp hx with rfl | hx
      · rfl
      · exact hall x hx
    have hya : shape y = shape a := by
      rcases List.mem_cons.mp hy with rfl | hy
      · rfl
      · exact hall y hy
    rw [hxa, hya]
  · rw [if_neg hall]
    simp only [Option.isSome_none, Bool.false_eq_true, false_iff]
    intro hforall
    refine hall (fun b hb => ?_)
    exact hforall b (List.mem_cons_of_mem a hb) a (List.mem_cons_self a rest)

/-- Witness for C8: two equally shaped 1-by-1 slices stack successfully into
the two-slice volume. -/
theorem claim_C8_witness :
    ((stack [[[1]], [[2]]]).isSome ↔
      ∀ a ∈ [[[(1:ℚ)]], [[2]]], ∀ b ∈ [[[(1:ℚ)]], [[2]]], shape a = shape b)
    ∧ (∀ vol : List (List (List ℚ)), stack [[[1]], [[2]]] = some vol → vol = [[[1]], [[2]]]) :=
  claim_C8 [[[1]], [[2]]] (List.cons_ne_nil _ _)

/-- C10: the archive saved as "uploaded.zip" in the walked directory fails
the ".dcm" filter, so wherever it appears in the walk it is never parsed and
the discovery — and with it the whole run — is as if it were absent. -/
theorem claim_C10 (pre post : List FileEntry) (e : FileEntry)
    (hname : e.name = uploadedZipName) :
    isDcmName uploadedZipName = false
    ∧ collectCT (pre ++ e :: post) = collectCT (pre ++ post)
    ∧ runPipeline (pre ++ e :: post) = runPipeline (pre ++ post) := by
  have hfalse : isDcmName uploadedZipName = false := by decide
  have hskip : collectCT (pre ++ e :: post) = collectCT (pre ++ post) :=
    collectCT_skips pre post e (by rw [hname, hfalse]; exact Bool.false_ne_true)
  exact ⟨hfalse, hskip, by rw [runPipeline, runPipeline, hskip]⟩

/-- Witness for C10: the saved archive sitting between two DICOM files
changes nothing about the run. -/
theorem claim_C10_witness :
    isDcmName uploadedZipName = false
    ∧ collectCT ([fCT1] ++ fZip :: [fMR]) = collectCT ([fCT1] ++ [fMR])
    ∧ runPipeline ([fCT1] ++ fZip :: [fMR]) = runPipeline ([fCT1] ++ [fMR]) :=
  claim_C10 [fCT1] [fMR] fZip rfl

/-- C4: whenever the display branch runs, the displayed slice index is
floor(N / 2) where N is the number of kept CT slices, which is also the
extent of the volume along its leading axis. -/
theorem claim_C4 (files : List FileEntry) (ct : List Dicom)
    (vol : List (List (List ℚ))) (idx : Nat) (sl : List (List ℚ)) (hs : HistSpec)
    (hct : collectCT files = some ct)
    (hrun : runPipeline files = some (Output.display vol idx sl hs)) :
    idx = ct.length / 2 ∧ vol.length = ct.length := by
  obtain ⟨ct2, hct2, hne, hvol, hidx, hsl, hhs⟩ := runPipeline_display hrun
  rw [hct] at hct2
  obtain rfl : ct = ct2 := by
    have := hct2
    simpa using this
  have hlen : vol.length = ct.length := by
    rw [hvol, List.length_map, sortSlices, List.length_mergeSort]
  exact ⟨by rw [hidx, mid_slice_idx, hlen], hlen⟩

/-- Witness for C4: two CT slices give N = 2 and displayed index 1. -/
theorem claim_C4_witness :
    (1 : Nat) = [dA, dB].length / 2
      ∧ ([[[(1:ℚ)]], [[0]]] : List (List (List ℚ))).length = [dA, dB].length :=
  claim_C4 [fA, fB] [dA, dB] [[[1]], [[0]]] 1 [[0]] ⟨[1, 0], numBins, histLo, histHi⟩
    (by decide)
    (by
      have hct : collectCT [fA, fB] = some [dA, dB] := by decide
      rw [runPipeline, hct, Option.some_bind, afterCollect]
      norm_num [sortSlices, List.mergeSort, List.merge, sliceLE, dA, dB,
        hu_slice, slopeOf, interceptOf, stack, shape, mid_slice_idx, ravel,
        List.getD])

/-- C9: whenever the display branch runs the volume is non-empty, the
middle index N // 2 is strictly within bounds, and indexing the leading
axis with it is safe and yields the displayed slice. -/
theorem claim_C9 (files : List FileEntry) (vol : List (List (List ℚ)))
    (idx : Nat) (sl : List (List ℚ)) (hs : HistSpec)
    (hrun : runPipeline files = some (Output.display vol idx sl hs)) :
    0 < vol.length ∧ idx = mid_slice_idx vol ∧ idx < vol.length
      ∧ ∃ hlt : idx < vol.length, sl = vol.get ⟨idx, hlt⟩ := by
  obtain ⟨ct, hct, hne, hvol, hidx, hsl, -⟩ := runPipeline_display hrun
  have hpos : 0 < vol.length := by
    rw [hvol, List.length_map, sortSlices, List.length_mergeSort]
    exact List.length_pos.mpr hne
  have hlt : idx < vol.length := by
    rw [hidx, mid_slice_idx]
    exact Nat.div_lt_self hpos (by norm_num)
  refine ⟨hpos, hidx, hlt, hlt, ?_⟩
  rw [hsl, List.getD_eq_getElem?_getD, List.getElem?_eq_getElem hlt,
    Option.getD_some, List.get_eq_getElem]

/-- Witness for C9: a single CT slice gives a one-slice volume displayed at
index 0. -/
theorem claim_C9_witness :
    0 < ([[[(0:ℚ)]]] : List (List (List ℚ))).length
      ∧ (0 : Nat) = mid_slice_idx [[[(0:ℚ)]]]
      ∧ (0 : Nat) < ([[[(0:ℚ)]]] : List (List (List ℚ))).length
      ∧ ∃ hlt : (0 : Nat) < ([[[(0:ℚ)]]] : List (List (List ℚ))).length,
          [[(0:ℚ)]] = ([[[(0:ℚ)]]] : List (List (List ℚ))).get ⟨0, hlt⟩ :=
  claim_C9 [fC] [[[0]]] 0 [[0]] ⟨[0], numBins, histLo, histHi⟩
    (by
      have hct : collectCT [fC] = some [dC] := by decide
      rw [runPipeline, hct, Option.some_bind, afterCollect]
      norm_num [sortSlices, List.mergeSort, dC,
        hu_slice, slopeOf, interceptOf, stack, shape, mid_slice_idx, ravel,
        List.getD])

/-! ### The histogram binning -/

theorem histLo_eq : histLo = -1000 := rfl

theorem histHi_eq : histHi = 2000 := rfl

theorem binWidth_eq : binWidth = 15 := by
  norm_num [binWidth, histLo, histHi, numBins]

theorem floor_bin_eq (x : ℚ) (i : Nat) (hlo : (-1000 : ℚ) ≤ x) :
    (Int.toNat ⌊(x - -1000) / 15⌋ = i) ↔
      ((-1000 : ℚ) + 15 * i ≤ x ∧ x < -1000 + 15 * (i + 1)) := by
  have h15 : (0:ℚ) < 15 := by norm_num
  have hq0 : (0:ℚ) ≤ (x - -1000) / 15 := div_nonneg (by linarith) (by norm_num)
  have hf0 : 0 ≤ ⌊(x - -1000) / 15⌋ := Int.floor_nonneg.mpr hq0
  constructor
  · intro h
    have hfe : ⌊(x - -1000) / 15⌋ = (i : ℤ) := by
      rw [← h, Int.toNat_of_nonneg hf0]
    rw [Int.floor_eq_iff] at hfe
    obtain ⟨h1, h2⟩ := hfe
    push_cast at h1 h2
    rw [le_div_iff₀ h15] at h1
    rw [div_lt_iff₀ h15] at h2
    constructor <;> linarith
  · rintro ⟨h1, h2⟩
    have hfe : ⌊(x - -1000) / 15⌋ = (i : ℤ) := by
      rw [Int.floor_eq_iff]
      push_cast
      constructor
      · rw [le_div_iff₀ h15]; linarith
      · rw [div_lt_iff₀ h15]; linarith
    rw [hfe]
    exact Int.toNat_natCast i

/-- C7: the histogram call uses exactly 200 bins of common width 15
spanning the fixed range from -1000 to 2000; each bin count tallies the
values whose bin index is that bin; a value outside the range lies in no
bin and so changes no count (and raises no error); and the bin index
function places a value in bin i exactly when the value lies in the
half-open i-th subinterval (the last bin closed on the right). -/
theorem claim_C7 (vals : List ℚ) (x : ℚ) :
    (histCounts vals).length = 200
    ∧ binWidth = 15 ∧ histLo = -1000 ∧ histHi = 2000
    ∧ (∀ i : Nat, ∀ hi : i < (histCounts vals).length,
        (histCounts vals).get ⟨i, hi⟩
          = (vals.filter (fun v => binIndexOf v = some i)).length)
    ∧ ((x < histLo ∨ histHi < x) → histCounts (x :: vals) = histCounts vals)
    ∧ (∀ i : Nat, binIndexOf x = some i ↔
        ((i < 199 ∧ histLo + binWidth * i ≤ x ∧ x < histLo + binWidth * (i + 1))
         ∨ (i = 199 ∧ histLo + binWidth * 199 ≤ x ∧ x ≤ histHi)))
    ∧ (∀ files : List FileEntry, ∀ vol : List (List (List ℚ)), ∀ idx : Nat,
        ∀ sl : List (List ℚ), ∀ hs : HistSpec,
        runPipeline files = some (Output.display vol idx sl hs) →
          hs = ⟨ravel vol, numBins, histLo, histHi⟩) := by
  refine ⟨?_, binWidth_eq, rfl, rfl, ?_, ?_, ?_, ?_⟩
  · simp [histCounts, numBins]
  · intro i hi
    simp [histCounts, List.get_eq_getElem]
  · intro hout
    have hnone : binIndexOf x = none := by rw [binIndexOf, if_pos hout]
    simp [histCounts, List.filter_cons, hnone]
  · intro i
    by_cases hout : x < histLo ∨ histHi < x
    · rw [binIndexOf, if_pos hout]
      constructor
      · intro h; cases h
      · rintro (⟨h199, hlb, hub⟩ | ⟨rfl, hlb, hub⟩)
        · exfalso
          rw [binWidth_eq, histLo_eq] at hlb hub
          rcases hout with h | h
          · rw [histLo_eq] at h
            have h0 : (0:ℚ) ≤ 15 * (i:ℚ) := by positivity
            linarith
          · rw [histHi_eq] at h
            have hc : ((i:ℚ) + 1) ≤ 199 := by exact_mod_cast h199
            nlinarith
        · exfalso
          rw [binWidth_eq, histLo_eq] at hlb
          rw [histHi_eq] at hub
          rcases hout with h | h
          · rw [histLo_eq] at h; linarith
          · rw [histHi_eq] at h; linarith
    · rw [binIndexOf, if_neg hout]
      push_neg at hout
      obtain ⟨hlo, hhi⟩ := hout
      by_cases hx : x = histHi
      · rw [if_pos hx]
        subst hx
        rw [Option.some.injEq]
        have h199 : numBins - 1 = 199 := rfl
        rw [h199]
        constructor
        · rintro rfl
          refine Or.inr ⟨rfl, ?_, le_refl _⟩
          rw [binWidth_eq, histLo_eq, histHi_eq]
          norm_num
        · rintro (⟨hi199, hlb, hub⟩ | ⟨rfl, -, -⟩)
          · exfalso
            rw [binWidth_eq, histLo_eq, histHi_eq] at hub
            have hc : ((i:ℚ) + 1) ≤ 199 := by exact_mod_cast hi199
            nlinarith
          · rfl
      · rw [if_neg hx]
        rw [Option.some.injEq]
        have hxlt : x < histHi := lt_of_le_of_ne hhi hx
        rw [binWidth_eq, histLo_eq, histHi_eq]
        rw [histLo_eq] at hlo
        rw [histHi_eq] at hxlt
        rw [floor_bin_eq x i hlo]
        constructor
        · rintro ⟨h1, h2⟩
          rcases lt_trichotomy i 199 with hi | rfl | hi
          · exact Or.inl ⟨hi, h1, h2⟩
          · exact Or.inr ⟨rfl, h1, le_of_lt hxlt⟩
          · exfalso
            have hc : (200:ℚ) ≤ (i:ℚ) := by exact_mod_cast hi
            linarith
        · rintro (⟨-, h1, h2⟩ | ⟨rfl, h1, -⟩)
          · exact ⟨h1, h2⟩
          · refine ⟨h1, ?_⟩
            push_cast
            linarith
  · intro files vol idx sl hs hrun
    obtain ⟨ct, -, -, -, -, -, hhs⟩ := runPipeline_display hrun
    exact hhs

/-- Witness for C7: the out-of-range value 2005 changes no bin count. -/
theorem claim_C7_witness :
    histCounts (2005 :: []) = histCounts [] :=
  (claim_C7 [] 2005).2.2.2.2.2.1 (Or.inr (by norm_num [histHi]))

end MedicalDosimetry
